import Mathlib

/-!
Verification of the p2pool coordinator (`src/p2pool.cpp`) against its
natural-language specification.  The C++ code is shallowly embedded:
machine integers become `Nat` with explicit wrap-around (`% 2 ^ 64`)
where unsigned overflow can occur, `std::map` becomes an association
list sorted strictly ascending by key, `std::unordered_map` becomes an
association list with unique keys, and fallible operations return
`Option`.
-/

namespace P2PoolSpec

/-- `BLOCK_HEADERS_REQUIRED` from p2pool.cpp line 38. -/
def BLOCK_HEADERS_REQUIRED : Nat := 720

/-- `SEEDHASH_EPOCH_BLOCKS` from p2pool.cpp line 40. -/
def SEEDHASH_EPOCH_BLOCKS : Nat := 2048

/-- `SEEDHASH_EPOCH_LAG` from p2pool.cpp line 41. -/
def SEEDHASH_EPOCH_LAG : Nat := 64

/-- Two's-complement subtraction of 64-bit unsigned values (operands assumed
below `2 ^ 64`, as all C++ `uint64_t` values are). -/
def u64sub (a b : Nat) : Nat := if b ≤ a then a - b else 2 ^ 64 - b + a

/-- Modelled from the spec: `difficulty: u128 — two 64-bit halves (lo, hi)`
(the `difficulty_type` declaration lives in a header that is not part of
`src/`).  Zero-initialised by default like the C++ type. -/
structure Difficulty where
  lo : Nat := 0
  hi : Nat := 0
deriving DecidableEq, Repr

/-- Modelled from the spec: 128-bit comparison of `difficulty_type` values
(`operator<` is declared outside `src/`); `a < b` compares the `hi` halves
first, then the `lo` halves. -/
def dlt (a b : Difficulty) : Bool := a.hi < b.hi || (a.hi == b.hi && a.lo < b.lo)

/-- Modelled from the spec: `ChainMain` (main-chain header snapshot), declared
in a header outside `src/`.  Block hashes (`[u8;32]`) are modelled as `Nat`;
all fields are zero-initialised by default, matching the C++ constructor. -/
structure ChainMain where
  difficulty : Difficulty := {}
  height : Nat := 0
  timestamp : Nat := 0
  reward : Nat := 0
  id : Nat := 0
deriving DecidableEq, Repr

/-- `get_seed_height` (p2pool.cpp lines 139-145):
`(height - SEEDHASH_EPOCH_LAG - 1) & ~(SEEDHASH_EPOCH_BLOCKS - 1)` for
`height > SEEDHASH_EPOCH_LAG`, else 0.  The 64-bit complement
`~(2048 - 1)` is the mask `2 ^ 64 - 2048`. -/
def get_seed_height (height : Nat) : Nat :=
  if SEEDHASH_EPOCH_LAG < height then
    (height - SEEDHASH_EPOCH_LAG - 1) &&& (2 ^ 64 - SEEDHASH_EPOCH_BLOCKS)
  else 0

theorem land_seed_mask_mod (x : Nat) : (x &&& (2 ^ 64 - 2 ^ 11)) % 2 ^ 11 = 0 := by
  apply Nat.eq_of_testBit_eq
  intro i
  rw [Nat.testBit_mod_two_pow, Nat.testBit_and, Nat.zero_testBit]
  by_cases h : i < 11
  · have hm : Nat.testBit (2 ^ 64 - 2 ^ 11) i = false := by
      interval_cases i <;> decide
    rw [hm, Bool.and_false, Bool.and_false]
  · simp [h]

/-- C3: for every height `h`, `get_seed_height h` is
`(h - 65) & ~(2048 - 1)` when `h > 64` and `0` otherwise; consequently it is
`0` for `h ≤ 64`, and for `h > 64` it is divisible by 2048 and satisfies
`get_seed_height h + 64 < h`. -/
theorem get_seed_height_spec (height : Nat) :
    (64 < height → get_seed_height height = (height - 65) &&& (2 ^ 64 - 2048)) ∧
    (height ≤ 64 → get_seed_height height = 0) ∧
    (64 < height →
      get_seed_height height % 2048 = 0 ∧ get_seed_height height + 64 < height) := by
  have hdef : 64 < height →
      get_seed_height height = (height - 65) &&& (2 ^ 64 - 2048) := by
    intro h
    simp only [get_seed_height, SEEDHASH_EPOCH_LAG, SEEDHASH_EPOCH_BLOCKS, if_pos h]
    have : height - 64 - 1 = height - 65 := by omega
    rw [this]
  refine ⟨hdef, ?_, ?_⟩
  · intro h
    simp only [get_seed_height, SEEDHASH_EPOCH_LAG]
    rw [if_neg (by omega)]
  · intro h
    rw [hdef h]
    constructor
    · have h2048 : (2048 : Nat) = 2 ^ 11 := by norm_num
      rw [h2048]
      exact land_seed_mask_mod (height - 65)
    · have hle : (height - 65) &&& (2 ^ 64 - 2048) ≤ height - 65 := Nat.and_le_left
      omega

/-- Witness for C3 at height 5000. -/
theorem get_seed_height_spec_witness :
    get_seed_height 5000 % 2048 = 0 ∧ get_seed_height 5000 + 64 < 5000 :=
  (get_seed_height_spec 5000).2.2 (by decide)

/-! ## Main-chain index model

`m_mainchainByHeight` is a `std::map<uint64_t, ChainMain>` — modelled as an
association list sorted strictly ascending by key.  `m_mainchainByHash` is a
`std::unordered_map<hash, ChainMain>` — modelled as an association list with
unique keys (order irrelevant to the claims). -/

/-- Lookup in an association list (`map::find` / `unordered_map::find`). -/
def lookupA : List (Nat × ChainMain) → Nat → Option ChainMain
  | [], _ => none
  | (k, v) :: rest, key => if k = key then some v else lookupA rest key

/-- `std::map::operator[]`-style upsert keeping the list sorted ascending. -/
def insertSortedMap : List (Nat × ChainMain) → Nat → ChainMain → List (Nat × ChainMain)
  | [], key, v => [(key, v)]
  | (k, w) :: rest, key, v =>
    if key < k then (key, v) :: (k, w) :: rest
    else if key = k then (key, v) :: rest
    else (k, w) :: insertSortedMap rest key v

/-- `std::unordered_map::operator[]`-style upsert. -/
def insertHash : List (Nat × ChainMain) → Nat → ChainMain → List (Nat × ChainMain)
  | [], key, v => [(key, v)]
  | (k, w) :: rest, key, v =>
    if k = key then (key, v) :: rest else (k, w) :: insertHash rest key v

/-- `std::unordered_map::erase(key)`: removes the entry with that key. -/
def eraseKey : List (Nat × ChainMain) → Nat → List (Nat × ChainMain)
  | [], _ => []
  | (k, w) :: rest, key => if k = key then rest else (k, w) :: eraseKey rest key

/-- The coordinator's two mirror indexes (`m_mainchainByHeight`,
`m_mainchainByHash`), both empty at construction. -/
structure MainState where
  byHeight : List (Nat × ChainMain) := []
  byHash : List (Nat × ChainMain) := []
deriving DecidableEq, Repr

/-- The three protected RandomX seed heights used by
`cleanup_mainchain_data` (p2pool.cpp lines 1114-1115); the two older ones are
computed with wrapping `uint64_t` subtraction. -/
def seedHeights (height : Nat) : List Nat :=
  [get_seed_height height,
   u64sub (get_seed_height height) SEEDHASH_EPOCH_BLOCKS,
   u64sub (get_seed_height height) (SEEDHASH_EPOCH_BLOCKS * 2)]

/-- The pruning walk of `cleanup_mainchain_data` (p2pool.cpp lines 1117-1130):
scan by-height entries in ascending order; break at the first entry with
`h + PRUNE_DISTANCE >= height` (`uint64_t` addition, hence the `% 2 ^ 64`);
otherwise drop the entry from both maps unless `h` is a protected seed
height.  Returns the surviving by-height list and the updated by-hash list. -/
def cleanupLoop (height : Nat) (seeds : List Nat) :
    List (Nat × ChainMain) → List (Nat × ChainMain) →
    List (Nat × ChainMain) × List (Nat × ChainMain)
  | [], byHash => ([], byHash)
  | (h, v) :: rest, byHash =>
    if height ≤ (h + BLOCK_HEADERS_REQUIRED) % 2 ^ 64 then ((h, v) :: rest, byHash)
    else if h ∈ seeds then
      let r := cleanupLoop height seeds rest byHash
      ((h, v) :: r.1, r.2)
    else cleanupLoop height seeds rest (eraseKey byHash v.id)

/-- `cleanup_mainchain_data` (p2pool.cpp lines 1108-1131). -/
def cleanup_mainchain_data (height : Nat) (st : MainState) : MainState :=
  let r := cleanupLoop height (seedHeights height) st.byHeight st.byHash
  ⟨r.1, r.2⟩

/-- Modelled from the spec: `MinerData` (daemon's "what to mine next"
snapshot); the struct is declared in a header outside `src/`.  Only the
fields the embedded operations read are carried. -/
structure MinerData where
  major_version : Nat := 0
  height : Nat := 0
  prev_id : Nat := 0
  seed_hash : Nat := 0
  median_weight : Nat := 0
  already_generated_coins : Nat := 0
  difficulty : Difficulty := {}
  median_timestamp : Nat := 0
deriving DecidableEq, Repr

/-- The main-chain-index mutation performed by `handle_miner_data`
(p2pool.cpp lines 192-208): record the new difficulty at `data.height`
(creating a zero-initialised entry if absent, without mirroring it), rewrite
the entry at `data.height - 1` (`uint64_t` subtraction) with the parent hash
and zeroed timestamp/reward, mirror only that entry into by-hash, then
prune. -/
def handle_miner_data (d : MinerData) (st : MainState) : MainState :=
  let e0 := (lookupA st.byHeight d.height).getD {}
  let bh1 := insertSortedMap st.byHeight d.height { e0 with difficulty := d.difficulty }
  let hprev := u64sub d.height 1
  let c0 := (lookupA bh1 hprev).getD {}
  let c : ChainMain := { c0 with height := hprev, id := d.prev_id, timestamp := 0, reward := 0 }
  let bh2 := insertSortedMap bh1 hprev c
  cleanup_mainchain_data d.height ⟨bh2, insertHash st.byHash c.id c⟩

/-- The main-chain-index mutation performed by `handle_chain_main`
(p2pool.cpp lines 287-299): upsert height/timestamp/reward at `data.height`,
keeping whatever `id` the entry already carries (zero if absent), and mirror
the entry into by-hash under that id. -/
def handle_chain_main (dat : ChainMain) (st : MainState) : MainState :=
  let c0 := (lookupA st.byHeight dat.height).getD {}
  let c : ChainMain :=
    { c0 with height := dat.height, timestamp := dat.timestamp, reward := dat.reward }
  ⟨insertSortedMap st.byHeight dat.height c, insertHash st.byHash c.id c⟩

/-- The insertion performed by `parse_block_header` (p2pool.cpp lines
921-925) once the JSON header has been parsed into `c`: store `c` in both
maps. -/
def parse_block_header (c : ChainMain) (st : MainState) : MainState :=
  ⟨insertSortedMap st.byHeight c.height c, insertHash st.byHash c.id c⟩

/-- The insertions performed by `parse_block_headers_range` (p2pool.cpp
lines 951-980): each successfully parsed header is stored in both maps. -/
def parse_block_headers_range (cs : List ChainMain) (st : MainState) : MainState :=
  cs.foldl (fun s c => parse_block_header c s) st

/-! ## C2: the pruning postcondition of `cleanup_mainchain_data` -/

theorem cleanupLoop_mem (height : Nat) (seeds : List Nat) :
    ∀ (l bhash : List (Nat × ChainMain)),
      l.Pairwise (fun a b => a.1 < b.1) →
      (∀ p ∈ l, p.1 < 2 ^ 64 - 720) →
      ∀ p : Nat × ChainMain,
        p ∈ (cleanupLoop height seeds l bhash).1 ↔
          (p ∈ l ∧ (height ≤ p.1 + 720 ∨ p.1 ∈ seeds)) := by
  intro l
  induction l with
  | nil => intro bhash _ _ p; simp [cleanupLoop]
  | cons hd rest ih =>
    intro bhash hpw hbd p
    obtain ⟨h, v⟩ := hd
    have hbound : h + 720 < 2 ^ 64 := by
      have := hbd (h, v) (List.mem_cons_self _ _)
      omega
    have hmod : (h + BLOCK_HEADERS_REQUIRED) % 2 ^ 64 = h + 720 := by
      simp only [BLOCK_HEADERS_REQUIRED]
      exact Nat.mod_eq_of_lt hbound
    have hpw' := (List.pairwise_cons.mp hpw).2
    have hlt := (List.pairwise_cons.mp hpw).1
    have hbd' : ∀ p ∈ rest, p.1 < 2 ^ 64 - 720 :=
      fun q hq => hbd q (List.mem_cons_of_mem _ hq)
    simp only [cleanupLoop, hmod]
    by_cases hbr : height ≤ h + 720
    · rw [if_pos hbr]
      constructor
      · intro hp
        refine ⟨hp, Or.inl ?_⟩
        rcases List.mem_cons.mp hp with heq | hmem
        · rw [heq]; exact hbr
        · have := hlt p hmem
          omega
      · exact fun hp => hp.1
    · rw [if_neg hbr]
      by_cases hs : h ∈ seeds
      · rw [if_pos hs]
        simp only [List.mem_cons]
        constructor
        · intro hp
          rcases hp with heq | hmem
          · exact ⟨Or.inl heq, Or.inr (by rw [heq]; exact hs)⟩
          · have := (ih bhash hpw' hbd' p).mp hmem
            exact ⟨Or.inr this.1, this.2⟩
        · intro ⟨hp, hcond⟩
          rcases hp with heq | hmem
          · exact Or.inl heq
          · exact Or.inr ((ih bhash hpw' hbd' p).mpr ⟨hmem, hcond⟩)
      · rw [if_neg hs]
        rw [ih (eraseKey bhash v.id) hpw' hbd' p]
        simp only [List.mem_cons]
        constructor
        · intro ⟨hmem, hcond⟩
          exact ⟨Or.inr hmem, hcond⟩
        · intro ⟨hp, hcond⟩
          rcases hp with heq | hmem
          · exfalso
            rcases hcond with hle | hseed
            · rw [heq] at hle; omega
            · rw [heq] at hseed; exact hs hseed
          · exact ⟨hmem, hcond⟩

theorem cleanup_noop (height : Nat) (st : MainState)
    (hbd : ∀ p ∈ st.byHeight, p.1 < 2 ^ 64 - 720) (ht : height < 720) :
    cleanup_mainchain_data height st = st := by
  obtain ⟨l, bhash⟩ := st
  cases l with
  | nil => rfl
  | cons hd rest =>
    obtain ⟨h, v⟩ := hd
    have hbound : h + 720 < 2 ^ 64 := by
      have := hbd (h, v) (List.mem_cons_self _ _)
      omega
    have hmod : (h + BLOCK_HEADERS_REQUIRED) % 2 ^ 64 = h + 720 := by
      simp only [BLOCK_HEADERS_REQUIRED]
      exact Nat.mod_eq_of_lt hbound
    simp only [cleanup_mainchain_data, cleanupLoop, hmod]
    rw [if_pos (by omega)]

/-- C2 (amended): for a by-height index sorted ascending whose heights are
below `2 ^ 64 - 720`, after `cleanup_mainchain_data height` an entry at
height `h` survives if and only if `h + 720 ≥ height` or `h` is one of the
three protected seed heights (so the walk drops exactly the entries with
`h + 720 < height` whose height is not a seed height), and when
`height < 720` the operation changes nothing.  The original claim's bound
`[height - 719, height]` is off by one: the walk already stops at
`h = height - 720`. -/
theorem cleanup_mainchain_data_spec (height : Nat) (st : MainState)
    (hsorted : st.byHeight.Pairwise (fun a b => a.1 < b.1))
    (hbd : ∀ p ∈ st.byHeight, p.1 < 2 ^ 64 - 720) :
    (∀ p : Nat × ChainMain,
        p ∈ (cleanup_mainchain_data height st).byHeight ↔
          (p ∈ st.byHeight ∧ (height ≤ p.1 + 720 ∨ p.1 ∈ seedHeights height))) ∧
    (height < 720 → cleanup_mainchain_data height st = st) := by
  constructor
  · intro p
    exact cleanupLoop_mem height (seedHeights height) st.byHeight st.byHash hsorted hbd p
  · exact cleanup_noop height st hbd

/-- Witness for C2: a singleton index at height 50 pruned with tip 800. -/
theorem cleanup_mainchain_data_spec_witness :
    (∀ p : Nat × ChainMain,
        p ∈ (cleanup_mainchain_data 800 ⟨[(50, {})], []⟩).byHeight ↔
          (p ∈ [(50, ({} : ChainMain))] ∧ (800 ≤ p.1 + 720 ∨ p.1 ∈ seedHeights 800))) ∧
    (800 < 720 → cleanup_mainchain_data 800 ⟨[(50, {})], []⟩ = ⟨[(50, {})], []⟩) :=
  cleanup_mainchain_data_spec 800 ⟨[(50, {})], []⟩ (by decide) (by decide)

/-- Counterexample to C2 as stated: with a single entry at height 9280 and
tip 10000, the entry survives `cleanup_mainchain_data` (because
`9280 + 720 ≥ 10000`) yet 9280 is neither within `[10000 - 719, 10000]`
nor one of the three seed heights of 10000. -/
theorem cleanup_mainchain_data_cex :
    (9280, ({} : ChainMain)) ∈ (cleanup_mainchain_data 10000 ⟨[(9280, {})], []⟩).byHeight ∧
    ¬ (10000 - 719 ≤ 9280 ∧ 9280 ≤ 10000) ∧
    9280 ∉ seedHeights 10000 := by decide

/-! ## C1: the two indexes do not fully mirror each other, but every by-hash
entry is keyed by its value's id -/

/-- Weak mirror property: every entry of `m_mainchainByHash` is stored under
the key equal to its value's `id`. -/
def hashIdConsistent (st : MainState) : Prop := ∀ p ∈ st.byHash, p.2.id = p.1

/-- The full mirror property asserted by the original claim: every by-height
value is found in by-hash under its id, and every by-hash key is the id of
exactly one by-height entry. -/
def mirrorClaim (st : MainState) : Prop :=
  (∀ p ∈ st.byHeight, lookupA st.byHash p.2.id = some p.2) ∧
  (∀ q ∈ st.byHash, st.byHeight.countP (fun p => p.2.id == q.1) = 1)

theorem insertHash_id_pres :
    ∀ (m : List (Nat × ChainMain)) (k : Nat) (v : ChainMain),
      (∀ p ∈ m, p.2.id = p.1) → v.id = k →
      ∀ p ∈ insertHash m k v, p.2.id = p.1 := by
  intro m
  induction m with
  | nil =>
    intro k v _ hv p hp
    simp only [insertHash, List.mem_singleton] at hp
    rw [hp]
    exact hv
  | cons hd rest ih =>
    intro k v hm hv p hp
    obtain ⟨k0, w⟩ := hd
    simp only [insertHash] at hp
    by_cases hk : k0 = k
    · rw [if_pos hk] at hp
      rcases List.mem_cons.mp hp with heq | hmem
      · rw [heq]; exact hv
      · exact hm p (List.mem_cons_of_mem _ hmem)
    · rw [if_neg hk] at hp
      rcases List.mem_cons.mp hp with heq | hmem
      · exact hm p (by rw [heq]; exact List.mem_cons_self _ _)
      · exact ih k v (fun q hq => hm q (List.mem_cons_of_mem _ hq)) hv p hmem

theorem eraseKey_subset :
    ∀ (m : List (Nat × ChainMain)) (k : Nat) (p : Nat × ChainMain),
      p ∈ eraseKey m k → p ∈ m := by
  intro m
  induction m with
  | nil => intro k p hp; simp [eraseKey] at hp
  | cons hd rest ih =>
    intro k p hp
    obtain ⟨k0, w⟩ := hd
    simp only [eraseKey] at hp
    by_cases hk : k0 = k
    · rw [if_pos hk] at hp
      exact List.mem_cons_of_mem _ hp
    · rw [if_neg hk] at hp
      rcases List.mem_cons.mp hp with heq | hmem
      · exact (by rw [heq]; exact List.mem_cons_self _ _)
      · exact List.mem_cons_of_mem _ (ih k p hmem)

theorem cleanupLoop_hash_pres (height : Nat) (seeds : List Nat) :
    ∀ (l bhash : List (Nat × ChainMain)),
      (∀ p ∈ bhash, p.2.id = p.1) →
      ∀ p ∈ (cleanupLoop height seeds l bhash).2, p.2.id = p.1 := by
  intro l
  induction l with
  | nil => intro bhash hb p hp; exact hb p hp
  | cons hd rest ih =>
    intro bhash hb p hp
    obtain ⟨h, v⟩ := hd
    simp only [cleanupLoop] at hp
    by_cases hbr : height ≤ (h + BLOCK_HEADERS_REQUIRED) % 2 ^ 64
    · rw [if_pos hbr] at hp
      exact hb p hp
    · rw [if_neg hbr] at hp
      by_cases hs : h ∈ seeds
      · rw [if_pos hs] at hp
        exact ih bhash hb p hp
      · rw [if_neg hs] at hp
        exact ih (eraseKey bhash v.id)
          (fun q hq => hb q (eraseKey_subset bhash v.id q hq)) p hp

theorem parse_block_headers_range_hash_pres :
    ∀ (cs : List ChainMain) (st : MainState),
      hashIdConsistent st → hashIdConsistent (parse_block_headers_range cs st) := by
  intro cs
  induction cs with
  | nil => intro st h; exact h
  | cons c rest ih =>
    intro st h
    exact ih (parse_block_header c st)
      (insertHash_id_pres st.byHash c.id c h rfl)

/-- C1 (amended): the empty initial state is consistent, and each of the
five index operations preserves the property that every `m_mainchainByHash`
entry is keyed by its value's `id`.  The full bidirectional mirror of the
original claim fails because `handle_miner_data` records the new difficulty
at `data.height` in the by-height map without mirroring that entry into the
by-hash map (see `mainchain_mirror_cex`). -/
theorem mainchain_hash_id_spec :
    hashIdConsistent ⟨[], []⟩ ∧
    ∀ st : MainState, hashIdConsistent st →
      ∀ (d : MinerData) (c hdr : ChainMain) (cs : List ChainMain) (height : Nat),
        hashIdConsistent (handle_miner_data d st) ∧
        hashIdConsistent (handle_chain_main c st) ∧
        hashIdConsistent (parse_block_header hdr st) ∧
        hashIdConsistent (parse_block_headers_range cs st) ∧
        hashIdConsistent (cleanup_mainchain_data height st) := by
  constructor
  · intro p hp
    simp at hp
  · intro st hst d c hdr cs height
    refine ⟨?_, ?_, ?_, ?_, ?_⟩
    · intro p hp
      exact cleanupLoop_hash_pres d.height (seedHeights d.height) _ _
        (insertHash_id_pres st.byHash _ _ hst rfl) p hp
    · exact insertHash_id_pres st.byHash _ _ hst rfl
    · exact insertHash_id_pres st.byHash _ _ hst rfl
    · exact parse_block_headers_range_hash_pres cs st hst
    · intro p hp
      exact cleanupLoop_hash_pres height (seedHeights height) _ _ hst p hp

/-- MinerData value used in the C1 counterexample and witnesses. -/
def d0 : MinerData := { height := 2, prev_id := 5, difficulty := ⟨7, 0⟩ }

/-- Witness for C1 at the empty state and `d0`. -/
theorem mainchain_hash_id_spec_witness :
    hashIdConsistent (handle_miner_data d0 ⟨[], []⟩) :=
  (mainchain_hash_id_spec.2 ⟨[], []⟩ (fun p hp => by simp at hp) d0 {} {} [] 0).1

/-- Counterexample to C1 as stated: starting from the empty index,
`handle_miner_data` with `height = 2`, `prev_id = 5` leaves a by-height
entry at height 2 whose id (zero) has no corresponding by-hash entry, so
the full mirror property fails right after the operation. -/
theorem mainchain_mirror_cex : ¬ mirrorClaim (handle_miner_data d0 ⟨[], []⟩) := by
  unfold mirrorClaim
  decide

/-! ## C4: median timestamp -/

/-- `get_timestamps` (p2pool.cpp lines 606-622), parameterised by the
window constant `W`.  Modelled from the spec: `TIMESTAMP_WINDOW` is defined
in a header outside `src/`; the spec only says to treat it as `≥ 2` and
even.  Fails exactly when the by-height map has at most `W` entries;
otherwise returns the `W` most-recent timestamps in height-descending
order. -/
def get_timestamps (W : Nat) (st : MainState) : Option (List Nat) :=
  if st.byHeight.length ≤ W then none
  else some (((st.byHeight.map fun p => p.2.timestamp).reverse).take W)

/-- `update_median_timestamp` (p2pool.cpp lines 624-638): the new value of
`m_minerData.median_timestamp`.  `std::sort` yields the unique ascending
sorted permutation, modelled by `List.insertionSort`; the `uint64_t`
addition of the two middle elements wraps, hence the `% 2 ^ 64`. -/
def update_median_timestamp (W : Nat) (st : MainState) : Nat :=
  match get_timestamps W st with
  | none => 0
  | some ts =>
    let a := List.insertionSort (fun x y => x ≤ y) ts
    ((a.getD (W / 2) 0 + a.getD (W / 2 + 1) 0) % 2 ^ 64) / 2

/-- C4: `update_median_timestamp` yields 0 exactly when the by-height map
has at most `TIMESTAMP_WINDOW` entries (`get_timestamps` fails in exactly
that case); otherwise it sorts the `W` most-recent timestamps ascending
and returns `(a[W/2] + a[W/2+1]) / 2` (with wrapping 64-bit addition). -/
theorem update_median_timestamp_spec (W : Nat) (st : MainState)
    (hW : 2 ≤ W) (hEven : Even W) :
    (get_timestamps W st = none ↔ st.byHeight.length ≤ W) ∧
    (st.byHeight.length ≤ W → update_median_timestamp W st = 0) ∧
    (W < st.byHeight.length →
      update_median_timestamp W st =
        (let a := List.insertionSort (fun x y => x ≤ y)
          (((st.byHeight.map fun p => p.2.timestamp).reverse).take W)
         ((a.getD (W / 2) 0 + a.getD (W / 2 + 1) 0) % 2 ^ 64) / 2)) ∧
    (∀ ts, get_timestamps W st = some ts →
      (List.insertionSort (fun x y => x ≤ y) ts).Sorted (fun x y => x ≤ y) ∧
      (List.insertionSort (fun x y => x ≤ y) ts).Perm ts) := by
  refine ⟨?_, ?_, ?_, ?_⟩
  · constructor
    · intro h
      by_contra hlt
      simp only [get_timestamps, if_neg hlt] at h
      exact Option.noConfusion h
    · intro h
      simp [get_timestamps, h]
  · intro h
    simp [update_median_timestamp, get_timestamps, h]
  · intro h
    have hne : ¬ st.byHeight.length ≤ W := by omega
    simp [update_median_timestamp, get_timestamps, hne]
  · intro ts hts
    refine ⟨List.sorted_insertionSort _ ts, List.perm_insertionSort _ ts⟩

/-- Witness for C4 with window 4 and a 5-entry index. -/
theorem update_median_timestamp_spec_witness :
    (get_timestamps 4 ⟨[(0, {}), (1, {}), (2, {}), (3, {}), (4, {})], []⟩ = none ↔
      ([(0, ({} : ChainMain)), (1, {}), (2, {}), (3, {}), (4, {})]).length ≤ 4) ∧
    (([(0, ({} : ChainMain)), (1, {}), (2, {}), (3, {}), (4, {})]).length ≤ 4 →
      update_median_timestamp 4 ⟨[(0, {}), (1, {}), (2, {}), (3, {}), (4, {})], []⟩ = 0) ∧
    (4 < ([(0, ({} : ChainMain)), (1, {}), (2, {}), (3, {}), (4, {})]).length →
      update_median_timestamp 4 ⟨[(0, {}), (1, {}), (2, {}), (3, {}), (4, {})], []⟩ =
        (let a := List.insertionSort (fun x y => x ≤ y)
          ((([(0, ({} : ChainMain)), (1, {}), (2, {}), (3, {}), (4, {})]).map
            fun p => p.2.timestamp).reverse.take 4)
         ((a.getD (4 / 2) 0 + a.getD (4 / 2 + 1) 0) % 2 ^ 64) / 2)) ∧
    (∀ ts, get_timestamps 4 ⟨[(0, {}), (1, {}), (2, {}), (3, {}), (4, {})], []⟩ = some ts →
      (List.insertionSort (fun x y => x ≤ y) ts).Sorted (fun x y => x ≤ y) ∧
      (List.insertionSort (fun x y => x ≤ y) ts).Perm ts) :=
  update_median_timestamp_spec 4 ⟨[(0, {}), (1, {}), (2, {}), (3, {}), (4, {})], []⟩
    (by decide) (by decide)

/-! ## C7: `handle_tx` rejection -/

/-- Modelled from the spec: `TxMempoolData` with
`id, blob_size, weight, fee` (declared in a header outside `src/`). -/
structure TxMempoolData where
  id : Nat := 0
  blob_size : Nat := 0
  weight : Nat := 0
  fee : Nat := 0
deriving DecidableEq, Repr

/-- `handle_tx` (p2pool.cpp lines 160-180) restricted to its mempool
effect: reject when `!tx.weight || !tx.fee`, otherwise `Mempool::add(tx)`
(the mempool is an external collaborator; `add` is modelled from the spec
as appending the transaction). -/
def handle_tx (tx : TxMempoolData) (pool : List TxMempoolData) : List TxMempoolData :=
  if tx.weight = 0 ∨ tx.fee = 0 then pool else pool ++ [tx]

/-- C7: a transaction with zero weight or zero fee leaves the mempool
unchanged (`Mempool::add` is not called); a transaction with both fields
non-zero is added. -/
theorem handle_tx_spec (tx : TxMempoolData) (pool : List TxMempoolData) :
    (tx.weight = 0 ∨ tx.fee = 0 → handle_tx tx pool = pool) ∧
    (tx.weight ≠ 0 → tx.fee ≠ 0 → handle_tx tx pool = pool ++ [tx]) := by
  constructor
  · intro h
    simp [handle_tx, h]
  · intro hw hf
    simp [handle_tx, hw, hf]

/-- Witness for C7: a zero-fee transaction is dropped and a valid one is
appended. -/
theorem handle_tx_spec_witness :
    handle_tx { weight := 3, fee := 0 } [] = [] ∧
    handle_tx { weight := 3, fee := 7 } [] = [{ weight := 3, fee := 7 }] :=
  ⟨(handle_tx_spec { weight := 3, fee := 0 } []).1 (Or.inr rfl),
   (handle_tx_spec { weight := 3, fee := 7 } []).2 (by decide) (by decide)⟩

/-! ## C8: the pending-submit record -/

/-- Modelled from the spec: `SubmitBlockData` — a template handle
`(template_id, nonce, extra_nonce)` or an external blob (declared in a
header outside `src/`); zero/empty-initialised in the constructor
(`m_submitBlockData{}`, p2pool.cpp line 51). -/
structure SubmitBlockData where
  template_id : Nat := 0
  nonce : Nat := 0
  extra_nonce : Nat := 0
  blob : List Nat := []
deriving DecidableEq, Repr

/-- `submit_block_async(uint32_t, uint32_t, uint32_t)` (p2pool.cpp lines
338-353): overwrite ids, clear the blob. -/
def submit_block_async_internal (template_id nonce extra_nonce : Nat)
    (_s : SubmitBlockData) : SubmitBlockData :=
  { template_id := template_id, nonce := nonce, extra_nonce := extra_nonce, blob := [] }

/-- `submit_block_async(const std::vector<uint8_t>&)` (p2pool.cpp lines
355-370): zero the ids, store the blob. -/
def submit_block_async_external (blob : List Nat) (_s : SubmitBlockData) : SubmitBlockData :=
  { template_id := 0, nonce := 0, extra_nonce := 0, blob := blob }

/-- States of `m_submitBlockData` reachable from the constructor through
the two `submit_block_async` entry points. -/
inductive SubmitReachable : SubmitBlockData → Prop
  | init : SubmitReachable {}
  | internal (tid n en : Nat) {s : SubmitBlockData} :
      SubmitReachable s → SubmitReachable (submit_block_async_internal tid n en s)
  | external (blob : List Nat) {s : SubmitBlockData} :
      SubmitReachable s → SubmitReachable (submit_block_async_external blob s)

/-- C8 (amended): in every reachable pending-submit state, at least one of
the two sides holds — the external blob is empty, or all three of
`template_id`, `nonce`, `extra_nonce` are zero.  The original "exactly one"
(exclusive-or) fails already in the initial state, where both sides hold
(see `submit_block_data_cex`). -/
theorem submit_block_data_inv (s : SubmitBlockData) (h : SubmitReachable s) :
    s.blob = [] ∨ (s.template_id = 0 ∧ s.nonce = 0 ∧ s.extra_nonce = 0) := by
  induction h with
  | init => exact Or.inl rfl
  | internal tid n en _ _ => exact Or.inl rfl
  | external blob _ _ => exact Or.inr ⟨rfl, rfl, rfl⟩

/-- Witness for C8 at the initial state. -/
theorem submit_block_data_inv_witness :
    ({} : SubmitBlockData).blob = [] ∨
      (({} : SubmitBlockData).template_id = 0 ∧ ({} : SubmitBlockData).nonce = 0 ∧
        ({} : SubmitBlockData).extra_nonce = 0) :=
  submit_block_data_inv {} SubmitReachable.init

/-- Counterexample to C8 as stated: the initial state (empty blob and all
ids zero) is reachable and satisfies both sides of the claimed exclusive
or, so "exactly one" fails. -/
theorem submit_block_data_cex :
    SubmitReachable ({} : SubmitBlockData) ∧
    ¬ Xor' (({} : SubmitBlockData).blob = [])
        (({} : SubmitBlockData).template_id = 0 ∧ ({} : SubmitBlockData).nonce = 0 ∧
          ({} : SubmitBlockData).extra_nonce = 0) := by
  refine ⟨SubmitReachable.init, ?_⟩
  simp [Xor']

/-! ## C9: `load_found_blocks` with the API disabled -/

/-- Modelled from the spec: `FoundBlock`
`(timestamp, height, id, block_diff, total_hashes)` (declared in a header
outside `src/`). -/
structure FoundBlock where
  timestamp : Nat
  height : Nat
  id : Nat
  block_diff : Difficulty
  total_hashes : Difficulty
deriving DecidableEq, Repr

/-- A decimal token parsed by `operator>>` into a 128-bit
`difficulty_type`. -/
def diffOfNat (n : Nat) : Difficulty := ⟨n % 2 ^ 64, n / 2 ^ 64 % 2 ^ 64⟩

/-- The record-parsing loop of `load_found_blocks` (p2pool.cpp lines
688-709) over the whitespace-separated token stream of `p2pool.blocks`;
the stream's eof is modelled as exhaustion of the token list, so a record
is appended only when all five extractions found a token (a truncated
final record is dropped). -/
def load_found_blocks_loop : List Nat → List FoundBlock
  | t :: h :: i :: bd :: cd :: rest =>
    ⟨t, h, i, diffOfNat bd, diffOfNat cd⟩ :: load_found_blocks_loop rest
  | _ => []

/-- `load_found_blocks` (p2pool.cpp lines 677-712): the in-memory
found-blocks list after startup.  With no API (`m_api == nullptr`) it
returns before touching the file; with an API it parses the file (if it
opens) into the list.  `file = none` models a file that failed to open. -/
def load_found_blocks (api_enabled : Bool) (file : Option (List Nat)) : List FoundBlock :=
  if api_enabled = false then []
  else
    match file with
    | none => []
    | some toks => load_found_blocks_loop toks

/-- C9: when the telemetry API is disabled, `load_found_blocks` returns
immediately and the in-memory found-blocks list stays empty regardless of
what the ledger file on disk contains. -/
theorem load_found_blocks_disabled (file : Option (List Nat)) :
    load_found_blocks false file = [] := rfl

/-! ## C10: `api_update_stats_mod` publication guard -/

/-- The snapshot published to `global/stats_mod` (the fields the claim is
about). -/
structure StatsMod where
  networkHeight : Nat
  roundHashes : Nat
deriving DecidableEq, Repr

/-- `total_hashes` of the most recent found block, or zero when none
(p2pool.cpp lines 1064-1072). -/
def lastBlockTotalHashes (found : List FoundBlock) : Difficulty :=
  match found.getLast? with
  | some fb => fb.total_hashes
  | none => {}

/-- `api_update_stats_mod` (p2pool.cpp lines 1047-1106): `none` models an
early return without publishing; otherwise the published snapshot with
`roundHashes = total_hashes.lo - last_block_total_hashes.lo` (wrapping
64-bit subtraction). -/
def api_update_stats_mod (api_enabled : Bool) (tipHeight : Nat)
    (found : List FoundBlock) (total_hashes : Difficulty) : Option StatsMod :=
  if api_enabled = false then none
  else if dlt total_hashes (lastBlockTotalHashes found) then none
  else some ⟨tipHeight, u64sub total_hashes.lo (lastBlockTotalHashes found).lo⟩

/-- C10: `api_update_stats_mod` returns without publishing whenever the
side chain's cumulative `total_hashes` is 128-bit-smaller than the
`total_hashes` recorded with the last found block, and any snapshot it does
publish has `roundHashes = total_hashes.lo - last_block_total_hashes.lo`
computed from a cumulative count that is not smaller than the recorded
one. -/
theorem api_update_stats_mod_spec (api_enabled : Bool) (tipHeight : Nat)
    (found : List FoundBlock) (total_hashes : Difficulty) :
    (dlt total_hashes (lastBlockTotalHashes found) = true →
      api_update_stats_mod api_enabled tipHeight found total_hashes = none) ∧
    (∀ s, api_update_stats_mod api_enabled tipHeight found total_hashes = some s →
      dlt total_hashes (lastBlockTotalHashes found) = false ∧
      s.roundHashes = u64sub total_hashes.lo (lastBlockTotalHashes found).lo) := by
  constructor
  · intro h
    cases api_enabled with
    | false => rfl
    | true => simp [api_update_stats_mod, h]
  · intro s hs
    cases api_enabled with
    | false => simp [api_update_stats_mod] at hs
    | true =>
      by_cases h : dlt total_hashes (lastBlockTotalHashes found) = true
      · simp [api_update_stats_mod, h] at hs
      · have hf : dlt total_hashes (lastBlockTotalHashes found) = false := by
          cases hd : dlt total_hashes (lastBlockTotalHashes found) with
          | false => rfl
          | true => exact absurd hd h
        simp only [api_update_stats_mod, hf] at hs
        simp at hs
        exact ⟨hf, by rw [← hs]⟩

/-- Witness for C10: with no recorded block and cumulative hashes
`(5, 0)`, the snapshot is published with `roundHashes = 5`. -/
theorem api_update_stats_mod_spec_witness :
    dlt ⟨5, 0⟩ (lastBlockTotalHashes []) = false ∧
    (⟨7, u64sub 5 0⟩ : StatsMod).roundHashes =
      u64sub (Difficulty.lo ⟨5, 0⟩) (lastBlockTotalHashes []).lo :=
  (api_update_stats_mod_spec true 7 [] ⟨5, 0⟩).2 ⟨7, u64sub 5 0⟩ (by decide)

/-! ## C6: `api_update_block_found` -/

/-- `get_difficulty_at_height` (p2pool.cpp lines 1183-1194). -/
def get_difficulty_at_height (st : MainState) (height : Nat) : Option Difficulty :=
  (lookupA st.byHeight height).map fun c => c.difficulty

/-- `api_update_block_found` (p2pool.cpp lines 1133-1181) restricted to its
persistent effects: the optional ledger-file line
(`<time> <height> <id> <diff> <total_hashes>`) and the new in-memory
found-blocks list.  A line is written only when `data` is supplied and its
height's difficulty is indexed; the in-memory `emplace_back` happens
whenever `data` is supplied, using the looked-up difficulty or the
zero-initialised default. -/
def api_update_block_found (api_enabled : Bool) (data : Option ChainMain)
    (st : MainState) (found : List FoundBlock) (cur_time : Nat)
    (total_hashes : Difficulty) : Option FoundBlock × List FoundBlock :=
  if api_enabled = false then (none, found)
  else
    match data with
    | none => (none, found)
    | some c =>
      match get_difficulty_at_height st c.height with
      | some diff =>
        (some ⟨cur_time, c.height, c.id, diff, total_hashes⟩,
         found ++ [⟨cur_time, c.height, c.id, diff, total_hashes⟩])
      | none => (none, found ++ [⟨cur_time, c.height, c.id, {}, total_hashes⟩])

/-- C6 (amended): with the API enabled, `api_update_block_found` appends a
line to the found-blocks file exactly when a `ChainMain` value is supplied
and the main-chain index knows a difficulty for its height, but it appends
a `FoundBlock` to the in-memory list whenever a value is supplied — even
when the difficulty is not indexed (the record then carries the
zero-initialised difficulty).  With the API disabled, or without data,
neither gains an entry. -/
theorem api_update_block_found_spec (api_enabled : Bool) (data : Option ChainMain)
    (st : MainState) (found : List FoundBlock) (cur_time : Nat)
    (total_hashes : Difficulty) :
    ((api_update_block_found api_enabled data st found cur_time total_hashes).1 ≠ none ↔
      (api_enabled = true ∧
        ∃ c, data = some c ∧ get_difficulty_at_height st c.height ≠ none)) ∧
    ((api_update_block_found api_enabled data st found cur_time total_hashes).2.length =
      found.length + (if api_enabled = true ∧ data ≠ none then 1 else 0)) := by
  cases api_enabled with
  | false => simp [api_update_block_found]
  | true =>
    cases data with
    | none => simp [api_update_block_found]
    | some c =>
      cases hd : get_difficulty_at_height st c.height with
      | none => simp [api_update_block_found, hd]
      | some diff => simp [api_update_block_found, hd]

/-- Witness for C6: API enabled, data supplied, difficulty indexed at the
data's height — the file gains a line and the list gains an entry. -/
theorem api_update_block_found_spec_witness :
    ((api_update_block_found true (some { height := 5, id := 9 })
        ⟨[(5, { height := 5, id := 9, difficulty := ⟨3, 0⟩ })], []⟩ [] 100 ⟨50, 0⟩).1 ≠ none ↔
      (true = true ∧ ∃ c, (some { height := 5, id := 9 } : Option ChainMain) = some c ∧
        get_difficulty_at_height
          ⟨[(5, { height := 5, id := 9, difficulty := ⟨3, 0⟩ })], []⟩ c.height ≠ none)) ∧
    ((api_update_block_found true (some { height := 5, id := 9 })
        ⟨[(5, { height := 5, id := 9, difficulty := ⟨3, 0⟩ })], []⟩ [] 100 ⟨50, 0⟩).2.length =
      ([] : List FoundBlock).length +
        (if true = true ∧ (some { height := 5, id := 9 } : Option ChainMain) ≠ none
          then 1 else 0)) :=
  api_update_block_found_spec true (some { height := 5, id := 9 })
    ⟨[(5, { height := 5, id := 9, difficulty := ⟨3, 0⟩ })], []⟩ [] 100 ⟨50, 0⟩

/-- Counterexample to C6 as stated: API enabled, data supplied, but the
index is empty, so no difficulty is known for height 5 — no file line is
written, yet the in-memory list still gains one entry, contradicting the
claim that neither gains an entry in that case. -/
theorem api_update_block_found_cex :
    (api_update_block_found true (some { height := 5, id := 9 }) ⟨[], []⟩ [] 100 ⟨50, 0⟩).1
        = none ∧
    get_difficulty_at_height ⟨[], []⟩ 5 = none ∧
    (api_update_block_found true (some { height := 5, id := 9 })
        ⟨[], []⟩ [] 100 ⟨50, 0⟩).2.length = 1 := by decide

/-! ## C5: `submit_block` hex splicing -/

/-- The byte-emission loop of `submit_block` (p2pool.cpp lines 424-440):
walk the blob; inside the live nonce window (`nonce_offset != 0` and
`nonce_offset <= i < nonce_offset + 4`) emit the low byte of the running
nonce and shift it right by 8; likewise for the extra nonce; otherwise emit
the blob byte.  `sizeof(uint32_t) = 4`. -/
def spliceLoop (nonce_offset extra_nonce_offset : Nat) :
    Nat → Nat → Nat → List Nat → List Nat
  | _, _, _, [] => []
  | i, nonce, extra, b :: rest =>
    if nonce_offset ≠ 0 ∧ nonce_offset ≤ i ∧ i < nonce_offset + 4 then
      nonce % 256 ::
        spliceLoop nonce_offset extra_nonce_offset (i + 1) (nonce / 256) extra rest
    else if extra_nonce_offset ≠ 0 ∧ extra_nonce_offset ≤ i ∧
        i < extra_nonce_offset + 4 then
      extra % 256 ::
        spliceLoop nonce_offset extra_nonce_offset (i + 1) nonce (extra / 256) rest
    else
      b :: spliceLoop nonce_offset extra_nonce_offset (i + 1) nonce extra rest

/-- Pure per-position description of the same loop: the byte at absolute
position `i` is `N >> 8*(i - nonce_offset) & 255` inside the nonce window,
similarly for the extra nonce, else the blob byte. -/
def spliceAux (nonce_offset extra_nonce_offset N E : Nat) : Nat → List Nat → List Nat
  | _, [] => []
  | i, b :: rest =>
    (if nonce_offset ≠ 0 ∧ nonce_offset ≤ i ∧ i < nonce_offset + 4 then
      N / 256 ^ (i - nonce_offset) % 256
     else if extra_nonce_offset ≠ 0 ∧ extra_nonce_offset ≤ i ∧
        i < extra_nonce_offset + 4 then
      E / 256 ^ (i - extra_nonce_offset) % 256
     else b) :: spliceAux nonce_offset extra_nonce_offset N E (i + 1) rest

/-- Lowercase hex digit, as produced by `snprintf("%02x", ...)`. -/
def hexChar (n : Nat) : Char := if n < 10 then Char.ofNat (48 + n) else Char.ofNat (87 + n)

/-- The two-character `%02x` rendering of one byte appended per loop
iteration. -/
def hexEncode : List Nat → List Char
  | [] => []
  | b :: rest => hexChar (b / 16) :: hexChar (b % 16) :: hexEncode rest

/-- Value of one lowercase hex digit. -/
def hexDigitVal (c : Char) : Option Nat :=
  if 48 ≤ c.toNat ∧ c.toNat ≤ 57 then some (c.toNat - 48)
  else if 97 ≤ c.toNat ∧ c.toNat ≤ 102 then some (c.toNat - 87)
  else none

/-- Decoding of a hex string back into bytes (two digits per byte). -/
def hexDecode : List Char → Option (List Nat)
  | [] => some []
  | [_] => none
  | c1 :: c2 :: rest =>
    match hexDigitVal c1, hexDigitVal c2, hexDecode rest with
    | some a, some b, some l => some ((a * 16 + b) :: l)
    | _, _, _ => none

/-- `submit_block` (p2pool.cpp lines 386-441) restricted to the hex blob it
embeds in the JSON request.  An empty pending blob means an internal
submission: the blob and the two offsets come from
`BlockTemplate::get_block_template_blob` (an external collaborator,
supplied here as `tmpl`; `none` models the template-not-found abort).  A
non-empty pending blob is an external submission; the offsets stay zero. -/
def submit_block_hex (pending : SubmitBlockData)
    (tmpl : Option (List Nat × Nat × Nat)) : Option (List Char) :=
  match pending.blob with
  | [] =>
    match tmpl with
    | none => none
    | some (tb, nonce_offset, extra_nonce_offset) =>
      some (hexEncode
        (spliceLoop nonce_offset extra_nonce_offset 0 pending.nonce pending.extra_nonce tb))
  | _ :: _ =>
    some (hexEncode (spliceLoop 0 0 0 pending.nonce pending.extra_nonce pending.blob))

/-- The 4-byte little-endian rendering of a 32-bit value. -/
def le4 (n : Nat) : List Nat := [n % 256, n / 256 % 256, n / 256 ^ 2 % 256, n / 256 ^ 3 % 256]

theorem hexDigitVal_hexChar (n : Nat) (h : n < 16) : hexDigitVal (hexChar n) = some n := by
  interval_cases n <;> decide

theorem hexDecode_hexEncode (bs : List Nat) (hb : ∀ b ∈ bs, b < 256) :
    hexDecode (hexEncode bs) = some bs := by
  induction bs with
  | nil => rfl
  | cons b rest ih =>
    have hblt : b < 256 := hb b (List.mem_cons_self _ _)
    have ih' := ih fun x hx => hb x (List.mem_cons_of_mem _ hx)
    have e1 : hexDigitVal (hexChar (b / 16)) = some (b / 16) :=
      hexDigitVal_hexChar _ (by omega)
    have e2 : hexDigitVal (hexChar (b % 16)) = some (b % 16) :=
      hexDigitVal_hexChar _ (by omega)
    simp only [hexEncode, hexDecode, e1, e2, ih']
    have hx : b / 16 * 16 + b % 16 = b := by omega
    rw [hx]

theorem spliceLoop_zero_offsets (N E : Nat) :
    ∀ (blob : List Nat) (i : Nat), spliceLoop 0 0 i N E blob = blob := by
  intro blob
  induction blob with
  | nil => intro i; rfl
  | cons b rest ih =>
    intro i
    simp only [spliceLoop]
    rw [if_neg (by simp), if_neg (by simp)]
    rw [ih (i + 1)]

theorem spliceLoop_eq_spliceAux (no eo : Nat) (hno : no ≠ 0) (heo : eo ≠ 0)
    (hdisj : no + 4 ≤ eo ∨ eo + 4 ≤ no) (N E : Nat) :
    ∀ (blob : List Nat) (i : Nat),
      spliceLoop no eo i (N / 256 ^ min (i - no) 4) (E / 256 ^ min (i - eo) 4) blob =
        spliceAux no eo N E i blob := by
  intro blob
  induction blob with
  | nil => intro i; rfl
  | cons b rest ih =>
    intro i
    simp only [spliceLoop, spliceAux]
    by_cases h1 : no ≠ 0 ∧ no ≤ i ∧ i < no + 4
    · rw [if_pos h1, if_pos h1]
      have hmin : min (i - no) 4 = i - no := by omega
      rw [hmin]
      have hn : N / 256 ^ (i - no) / 256 = N / 256 ^ min (i + 1 - no) 4 := by
        have harg : min (i + 1 - no) 4 = i - no + 1 := by omega
        rw [harg, Nat.pow_succ, ← Nat.div_div_eq_div_mul]
      have he : E / 256 ^ min (i - eo) 4 = E / 256 ^ min (i + 1 - eo) 4 := by
        have harg : min (i - eo) 4 = min (i + 1 - eo) 4 := by omega
        rw [harg]
      rw [hn, he, ih (i + 1)]
    · rw [if_neg h1, if_neg h1]
      by_cases h2 : eo ≠ 0 ∧ eo ≤ i ∧ i < eo + 4
      · rw [if_pos h2, if_pos h2]
        have hmin : min (i - eo) 4 = i - eo := by omega
        rw [hmin]
        have he : E / 256 ^ (i - eo) / 256 = E / 256 ^ min (i + 1 - eo) 4 := by
          have harg : min (i + 1 - eo) 4 = i - eo + 1 := by omega
          rw [harg, Nat.pow_succ, ← Nat.div_div_eq_div_mul]
        have hn : N / 256 ^ min (i - no) 4 = N / 256 ^ min (i + 1 - no) 4 := by
          have harg : min (i - no) 4 = min (i + 1 - no) 4 := by omega
          rw [harg]
        rw [hn, he, ih (i + 1)]
      · rw [if_neg h2, if_neg h2]
        have hn : N / 256 ^ min (i - no) 4 = N / 256 ^ min (i + 1 - no) 4 := by
          have harg : min (i - no) 4 = min (i + 1 - no) 4 := by omega
          rw [harg]
        have he : E / 256 ^ min (i - eo) 4 = E / 256 ^ min (i + 1 - eo) 4 := by
          have harg : min (i - eo) 4 = min (i + 1 - eo) 4 := by omega
          rw [harg]
        rw [hn, he, ih (i + 1)]

theorem spliceAux_length (no eo N E : Nat) :
    ∀ (blob : List Nat) (i : Nat), (spliceAux no eo N E i blob).length = blob.length := by
  intro blob
  induction blob with
  | nil => intro i; rfl
  | cons b rest ih =>
    intro i
    simp only [spliceAux, List.length_cons, ih (i + 1)]

theorem spliceAux_bytes_lt (no eo N E : Nat) :
    ∀ (blob : List Nat) (i : Nat), (∀ b ∈ blob, b < 256) →
      ∀ x ∈ spliceAux no eo N E i blob, x < 256 := by
  intro blob
  induction blob with
  | nil => intro i _ x hx; simp [spliceAux] at hx
  | cons b rest ih =>
    intro i hb x hx
    simp only [spliceAux, List.mem_cons] at hx
    rcases hx with heq | hmem
    · rw [heq]
      by_cases h1 : no ≠ 0 ∧ no ≤ i ∧ i < no + 4
      · rw [if_pos h1]; omega
      · rw [if_neg h1]
        by_cases h2 : eo ≠ 0 ∧ eo ≤ i ∧ i < eo + 4
        · rw [if_pos h2]; omega
        · rw [if_neg h2]
          exact hb b (List.mem_cons_self _ _)
    · exact ih (i + 1) (fun y hy => hb y (List.mem_cons_of_mem _ hy)) x hmem

theorem spliceAux_getElem (no eo N E : Nat) :
    ∀ (blob : List Nat) (i k : Nat),
      (spliceAux no eo N E i blob)[k]? =
        if k < blob.length then
          (if no ≠ 0 ∧ no ≤ i + k ∧ i + k < no + 4 then
            some (N / 256 ^ (i + k - no) % 256)
          else if eo ≠ 0 ∧ eo ≤ i + k ∧ i + k < eo + 4 then
            some (E / 256 ^ (i + k - eo) % 256)
          else blob[k]?)
        else none := by
  intro blob
  induction blob with
  | nil =>
    intro i k
    simp [spliceAux]
  | cons b rest ih =>
    intro i k
    cases k with
    | zero =>
      simp only [spliceAux, List.getElem?_cons_zero, List.length_cons, Nat.add_zero]
      rw [if_pos (Nat.succ_pos _)]
      by_cases h1 : no ≠ 0 ∧ no ≤ i ∧ i < no + 4
      · rw [if_pos h1, if_pos h1]
      · rw [if_neg h1, if_neg h1]
        by_cases h2 : eo ≠ 0 ∧ eo ≤ i ∧ i < eo + 4
        · rw [if_pos h2, if_pos h2]
        · rw [if_neg h2, if_neg h2]
    | succ k0 =>
      simp only [spliceAux, List.getElem?_cons_succ, List.length_cons]
      rw [ih (i + 1) k0]
      by_cases hk : k0 < rest.length
      · rw [if_pos hk, if_pos (by omega : k0 + 1 < rest.length + 1)]
        have harith : i + 1 + k0 = i + (k0 + 1) := by omega
        rw [harith]
      · rw [if_neg hk, if_neg (by omega : ¬ k0 + 1 < rest.length + 1)]

theorem le4_getElem (n j : Nat) (h : j < 4) : (le4 n)[j]? = some (n / 256 ^ j % 256) := by
  interval_cases j <;> simp [le4]

/-- C5 (amended): for an internal submission whose template offsets are
non-zero, in range, and give disjoint 4-byte windows, the hex blob that
`submit_block` embeds in the JSON request decodes to the template blob with
bytes `[X, X+4)` replaced by the little-endian nonce and `[Y, Y+4)` by the
little-endian extra nonce; for an external submission (non-empty pending
blob) it decodes to the pending blob verbatim.  The original claim fails
when an offset is zero, because the loop guard `nonce_offset &&` disables
that splice (see `submit_block_hex_cex`). -/
theorem submit_block_hex_spec (tid N E : Nat) (tb : List Nat) (no eo : Nat)
    (hno : no ≠ 0) (heo : eo ≠ 0)
    (hin1 : no + 4 ≤ tb.length) (hin2 : eo + 4 ≤ tb.length)
    (hdisj : no + 4 ≤ eo ∨ eo + 4 ≤ no)
    (hbytes : ∀ b ∈ tb, b < 256) :
    (∃ out,
      (submit_block_hex ⟨tid, N, E, []⟩ (some (tb, no, eo))).bind hexDecode = some out ∧
      out.length = tb.length ∧
      ∀ k, k < tb.length →
        out[k]? =
          if no ≤ k ∧ k < no + 4 then (le4 N)[k - no]?
          else if eo ≤ k ∧ k < eo + 4 then (le4 E)[k - eo]?
          else tb[k]?) ∧
    (∀ (blob : List Nat) (tmpl : Option (List Nat × Nat × Nat)),
      blob ≠ [] → (∀ b ∈ blob, b < 256) →
      (submit_block_hex ⟨tid, N, E, blob⟩ tmpl).bind hexDecode = some blob) := by
  constructor
  · refine ⟨spliceAux no eo N E 0 tb, ?_, spliceAux_length no eo N E tb 0, ?_⟩
    · have hstart : spliceLoop no eo 0 N E tb = spliceAux no eo N E 0 tb := by
        have h := spliceLoop_eq_spliceAux no eo hno heo hdisj N E tb 0
        have hn0 : N / 256 ^ min (0 - no) 4 = N := by
          have hm : min (0 - no) 4 = 0 := by omega
          rw [hm, Nat.pow_zero, Nat.div_one]
        have he0 : E / 256 ^ min (0 - eo) 4 = E := by
          have hm : min (0 - eo) 4 = 0 := by omega
          rw [hm, Nat.pow_zero, Nat.div_one]
        rw [hn0, he0] at h
        exact h
      simp only [submit_block_hex, hstart, Option.some_bind]
      exact hexDecode_hexEncode _ (spliceAux_bytes_lt no eo N E tb 0 hbytes)
    · intro k hk
      rw [spliceAux_getElem no eo N E tb 0 k]
      simp only [Nat.zero_add]
      rw [if_pos hk]
      by_cases hA : no ≤ k ∧ k < no + 4
      · rw [if_pos ⟨hno, hA.1, hA.2⟩, if_pos hA, le4_getElem N (k - no) (by omega)]
      · rw [if_neg (fun h => hA ⟨h.2.1, h.2.2⟩), if_neg hA]
        by_cases hB : eo ≤ k ∧ k < eo + 4
        · rw [if_pos ⟨heo, hB.1, hB.2⟩, if_pos hB, le4_getElem E (k - eo) (by omega)]
        · rw [if_neg (fun h => hB ⟨h.2.1, h.2.2⟩), if_neg hB]
  · intro blob tmpl hne hb
    cases blob with
    | nil => exact absurd rfl hne
    | cons b bs =>
      simp only [submit_block_hex, spliceLoop_zero_offsets, Option.some_bind]
      exact hexDecode_hexEncode _ hb

/-- Witness for C5: template blob of 12 bytes, nonce window at offset 1,
extra-nonce window at offset 6. -/
theorem submit_block_hex_spec_witness :
    (∃ out,
      (submit_block_hex ⟨9, 305419896, 2271560481, []⟩
          (some ([0, 0, 0, 0, 0, 0, 0, 0, 0, 0, 0, 0], 1, 6))).bind hexDecode = some out ∧
      out.length = ([0, 0, 0, 0, 0, 0, 0, 0, 0, 0, 0, 0] : List Nat).length ∧
      ∀ k, k < ([0, 0, 0, 0, 0, 0, 0, 0, 0, 0, 0, 0] : List Nat).length →
        out[k]? =
          if 1 ≤ k ∧ k < 1 + 4 then (le4 305419896)[k - 1]?
          else if 6 ≤ k ∧ k < 6 + 4 then (le4 2271560481)[k - 6]?
          else ([0, 0, 0, 0, 0, 0, 0, 0, 0, 0, 0, 0] : List Nat)[k]?) ∧
    (∀ (blob : List Nat) (tmpl : Option (List Nat × Nat × Nat)),
      blob ≠ [] → (∀ b ∈ blob, b < 256) →
      (submit_block_hex ⟨9, 305419896, 2271560481, blob⟩ tmpl).bind hexDecode = some blob) :=
  submit_block_hex_spec 9 305419896 2271560481 [0, 0, 0, 0, 0, 0, 0, 0, 0, 0, 0, 0] 1 6
    (by decide) (by decide) (by decide) (by decide) (Or.inl (by decide)) (by decide)

/-- Counterexample to C5 as stated: an internal submission whose template
reports `nonce_offset = 0` (with `extra_nonce_offset = 5`).  The emitted
hex decodes with bytes `[0, 4)` untouched — the `nonce_offset &&` guard
disables the nonce splice — whereas the claim demands them replaced by the
little-endian nonce `le4 2864434397 = [221, 204, 187, 170]`. -/
theorem submit_block_hex_cex :
    (submit_block_hex ⟨1, 2864434397, 16909060, []⟩
        (some ([1, 2, 3, 4, 5, 6, 7, 8, 9, 10], 0, 5))).bind hexDecode =
      some [1, 2, 3, 4, 5, 4, 3, 2, 1, 10] ∧
    le4 2864434397 = [221, 204, 187, 170] ∧
    ([1, 2, 3, 4, 5, 4, 3, 2, 1, 10] : List Nat)[0]? ≠ some 221 := by decide

end P2PoolSpec
